import Mathlib

/-!
Verification of the table-level SQL lineage resolver (`get_production_lineage`
in `app.py`) against its natural-language specification.

The resolver consumes the AST produced by the external SQL parser
(`sqlglot.parse_one`).  Per the specification, parsing is an external
collaborator: we embed the AST as an abstract tree of node kinds (table
reference, CTE definition, insert, create, select, other), with the two
capabilities the resolver uses, namely `find_all` and `find`, which in
sqlglot traverse the tree breadth-first (sqlglot's `walk`/`find`/`find_all`
default to `bfs=True`), the node itself first.  A parse failure (and, with
it, any exception caught by the resolver's try/except) is embedded as the
`none` case of the optional AST handed to the pipeline.

The networkx `DiGraph` is embedded as an insertion-ordered node list, each
node carrying its optional attribute record (`add_node` sets label/type/color
together) and its insertion-ordered, duplicate-free successor list;
`G.edges()` enumerates, for each node in insertion order, its successors in
insertion order, exactly as networkx does.
-/

/-- Kinds of sqlglot AST nodes the resolver distinguishes.  `table` carries
the table's name (`table.this.sql()`), `cte` carries the CTE's alias
(`cte.alias`); every other sqlglot expression kind is `other`. -/
inductive NodeKind where
  | table (name : String)
  | cte (aliasName : String)
  | insertStmt
  | createStmt
  | selectStmt
  | other
deriving DecidableEq, Repr

mutual
/-- An AST node: a kind together with its children in sqlglot's argument
order.  (Mutual with `AstList` so that all recursions are structural.) -/
inductive Ast where
  | mk (kind : NodeKind) (children : AstList)
deriving Repr
/-- A list of AST nodes (the children of a node). -/
inductive AstList where
  | nil
  | cons (head : Ast) (tail : AstList)
deriving Repr
end

mutual
/-- Number of nodes in a tree (used as breadth-first-search fuel). -/
def Ast.size : Ast → Nat
  | .mk _ cs => 1 + AstList.size cs
/-- Number of nodes in a forest. -/
def AstList.size : AstList → Nat
  | .nil => 0
  | .cons a l => a.size + l.size
end

/-- Convert an `AstList` to an ordinary list. -/
def AstList.toList : AstList → List Ast
  | .nil => []
  | .cons a l => a :: l.toList

/-- Build an `AstList` from an ordinary list. -/
def AstList.ofList : List Ast → AstList
  | [] => .nil
  | a :: l => .cons a (AstList.ofList l)

/-- Convenience constructor from an ordinary children list. -/
def ast (k : NodeKind) (cs : List Ast) : Ast := .mk k (AstList.ofList cs)

/-- The kind of a node. -/
def Ast.kind : Ast → NodeKind
  | .mk k _ => k

/-- The children of a node, in sqlglot argument order. -/
def Ast.children : Ast → List Ast
  | .mk _ cs => cs.toList

/-- Breadth-first enumeration of a queue of subtrees: dequeue a node, emit
it, enqueue its children (sqlglot's `bfs` walk).  The fuel argument makes
the recursion structural; callers pass at least the total node count. -/
def bfsFuel : Nat → List Ast → List Ast
  | 0, _ => []
  | _ + 1, [] => []
  | fuel + 1, a :: rest => a :: bfsFuel fuel (rest ++ a.children)

/-- sqlglot `node.walk(bfs=True)`: the node itself, then all descendants in
breadth-first order. -/
def Ast.walk (a : Ast) : List Ast := bfsFuel a.size [a]

/-- sqlglot `node.find_all(kinds)`: all nodes of matching kind in the
subtree, in breadth-first order. -/
def Ast.findAll (a : Ast) (p : NodeKind → Bool) : List Ast :=
  a.walk.filter (fun n => p n.kind)

/-- sqlglot `node.find(kinds)`: the first matching node in breadth-first
order, if any. -/
def Ast.findFirst (a : Ast) (p : NodeKind → Bool) : Option Ast :=
  (a.findAll p).head?

/-- The names of all table references in a subtree, in breadth-first order:
`[t.this.sql() for t in node.find_all(exp.Table)]`. -/
def Ast.tableNames (a : Ast) : List String :=
  a.walk.filterMap (fun n =>
    match n.kind with
    | .table s => some s
    | _ => none)

/-- Does the kind match `exp.Table`? -/
def NodeKind.isTable : NodeKind → Bool
  | .table _ => true
  | _ => false

/-- Does the kind match `exp.CTE`? -/
def NodeKind.isCte : NodeKind → Bool
  | .cte _ => true
  | _ => false

/-- Does the kind match `(exp.Create, exp.Insert)` — a write statement? -/
def NodeKind.isWrite : NodeKind → Bool
  | .insertStmt => true
  | .createStmt => true
  | _ => false

/-- Does the kind match `exp.Select`? -/
def NodeKind.isSelect : NodeKind → Bool
  | .selectStmt => true
  | _ => false

/-- The alias of a CTE node (`cte.alias`); the empty string on other kinds,
which the registry builder never applies it to. -/
def cteAliasOf (a : Ast) : String :=
  match a.kind with
  | .cte s => s
  | _ => ""

/-- Python dict assignment `d[k] = v` on an insertion-ordered association
list: an existing key keeps its position and gets the new value, a new key
is appended. -/
def dictInsert (l : List (String × Ast)) (k : String) (v : Ast) :
    List (String × Ast) :=
  if l.any (fun p => p.1 = k) then
    l.map (fun p => if p.1 = k then (k, v) else p)
  else l ++ [(k, v)]

/-- Step 2 of the resolver:
`cte_registry = {cte.alias: cte for cte in parsed.find_all(exp.CTE)}`. -/
def cteRegistry (parsed : Ast) : List (String × Ast) :=
  (parsed.findAll NodeKind.isCte).foldl (fun l c => dictInsert l (cteAliasOf c) c) []

/-- The destination-table name of one write statement:
`statement.find(exp.Table)`, then `table.this.sql()` when a table exists. -/
def destName (s : Ast) : Option String :=
  match s.findFirst NodeKind.isTable with
  | some t =>
    match t.kind with
    | .table n => some n
    | _ => none
  | none => none

/-- Step 3 of the resolver: iterate over
`parsed.find_all((exp.Create, exp.Insert))`, overwriting `target_name`
with each statement's destination when one is found. -/
def resolveTarget (parsed : Ast) : Option String :=
  (parsed.findAll NodeKind.isWrite).foldl
    (fun acc s =>
      match destName s with
      | some n => some n
      | none => acc)
    none

/-- The attribute record `add_node` attaches: label, type, color. -/
structure NodeAttrs where
  label : String
  ntype : String
  color : String
deriving DecidableEq, Repr

/-- One node of the networkx `DiGraph`: its name, its attribute record if
`add_node` ever set one, and its insertion-ordered successor list. -/
structure GNode where
  name : String
  attrs : Option NodeAttrs
  succ : List String
deriving DecidableEq, Repr

/-- The networkx `DiGraph`: nodes in insertion order. -/
structure DiGraph where
  nodes : List GNode
deriving DecidableEq, Repr

/-- The node update performed by `add_node` on an existing node: replace
the attribute record of the node named `n`. -/
def setAttrs (n : String) (a : NodeAttrs) (gn : GNode) : GNode :=
  if gn.name = n then { gn with attrs := some a } else gn

/-- Embeds `G.add_node(n, **attrs)`: update the attributes of an existing node in
place, or append a fresh node. -/
def DiGraph.addNode (g : DiGraph) (n : String) (a : NodeAttrs) : DiGraph :=
  if g.nodes.any (fun gn => gn.name = n) then
    ⟨g.nodes.map (setAttrs n a)⟩
  else ⟨g.nodes ++ [⟨n, some a, []⟩]⟩

/-- Ensure a node exists (networkx creates endpoint nodes, without
attributes, when `add_edge` mentions them). -/
def DiGraph.ensure (g : DiGraph) (n : String) : DiGraph :=
  if g.nodes.any (fun gn => gn.name = n) then g else ⟨g.nodes ++ [⟨n, none, []⟩]⟩

/-- The node update performed by `add_edge`: record `v` as a successor of
the node named `u` unless the edge already exists. -/
def updateSucc (u v : String) (gn : GNode) : GNode :=
  if gn.name = u then
    { gn with succ := if v ∈ gn.succ then gn.succ else gn.succ ++ [v] }
  else gn

/-- Embeds `G.add_edge(u, v)`: create missing endpoints (`u` first), then record
`v` as a successor of `u` unless the edge already exists. -/
def DiGraph.addEdge (g : DiGraph) (u v : String) : DiGraph :=
  let g' := (g.ensure u).ensure v
  ⟨g'.nodes.map (updateSucc u v)⟩

/-- Embeds `G.in_degree(n)`: the number of edges whose destination is `n`. -/
def DiGraph.inDegree (g : DiGraph) (n : String) : Nat :=
  (g.nodes.filter (fun gn => n ∈ gn.succ)).length

/-- Embeds `G.edges()`: for each node in insertion order, the edges it sources, in
successor insertion order. -/
def DiGraph.edges (g : DiGraph) : List (String × String) :=
  g.nodes.flatMap (fun gn => gn.succ.map (fun v => (gn.name, v)))

/-- Look a node up by name. -/
def DiGraph.findNode (g : DiGraph) (n : String) : Option GNode :=
  g.nodes.find? (fun gn => gn.name = n)

/-- The attribute record currently attached to a node, if any. -/
def DiGraph.attrsOf (g : DiGraph) (n : String) : Option NodeAttrs :=
  match g.findNode n with
  | some gn => gn.attrs
  | none => none

/-- One step of the dependency tracer: add the edge `source → node_name`
unless the reference names the owning node itself (the self-loop guard). -/
def traceStep (nodeName : String) (g : DiGraph) (source : String) : DiGraph :=
  if source ≠ nodeName then g.addEdge source nodeName else g

/-- Step 4 of the resolver, `trace_dependencies(expression, node_name)`: one
edge `source → node_name` per table reference in the scope whose name
differs from the owning node's name. -/
def traceDependencies (g : DiGraph) (expression : Ast) (nodeName : String) : DiGraph :=
  expression.tableNames.foldl (traceStep nodeName) g

/-- The attributes `add_node` attaches to a CTE node. -/
def cteAttrs (a : String) : NodeAttrs := ⟨"CTE: " ++ a, "CTE", "#4da6ff"⟩

/-- The attributes `add_node` attaches to the target node. -/
def targetAttrs (t : String) : NodeAttrs := ⟨t, "TARGET", "#4dff88"⟩

/-- One step of the CTE phase: register the alias node (category CTE), then
trace the CTE body with the alias as owner. -/
def buildStep (g : DiGraph) (p : String × Ast) : DiGraph :=
  traceDependencies (g.addNode p.1 (cteAttrs p.1)) p.2 p.1

/-- Step 5 of the resolver: fold the CTE phase over every registry entry. -/
def buildCteGraph (registry : List (String × Ast)) (g : DiGraph) : DiGraph :=
  registry.foldl buildStep g

/-- Step 6 of the resolver: when a target name was resolved (Python
truthiness: not `None` and not empty), register the target node, and when a
primary query body exists (`parsed.find(exp.Select)`), trace it with the
target as owner. -/
def addTargetSome (parsed : Ast) (t : String) (g : DiGraph) : DiGraph :=
  if t ≠ "" then
    match parsed.findFirst NodeKind.isSelect with
    | some mainSelect => traceDependencies (g.addNode t (targetAttrs t)) mainSelect t
    | none => g.addNode t (targetAttrs t)
  else g

/-- Dispatch on whether a target name was resolved at all (`None` skips the
whole step). -/
def addTarget (parsed : Ast) (targetName : Option String) (g : DiGraph) : DiGraph :=
  match targetName with
  | some t => addTargetSome parsed t g
  | none => g

/-- The fully assembled graph for one parsed statement. -/
def assembleGraph (parsed : Ast) : DiGraph :=
  addTarget parsed (resolveTarget parsed) (buildCteGraph (cteRegistry parsed) ⟨[]⟩)

/-- One entry of the formatted node list. -/
structure VisNode where
  id : String
  label : String
  color : String
deriving DecidableEq, Repr

/-- The resolver's result: ordered node and edge lists. -/
structure LineageResult where
  nodes : List VisNode
  edges : List (String × String)
deriving DecidableEq, Repr

/-- Step 7 of the resolver, one node:
`is_raw = G.in_degree(node) == 0 and node != target_name`; a raw source is
labeled `RAW: <name>` in red, every other node keeps its registered label
and color, with networkx's attribute defaults when none were set. -/
def formatNode (g : DiGraph) (targetName : Option String) (gn : GNode) : VisNode :=
  if g.inDegree gn.name = 0 ∧ some gn.name ≠ targetName then
    ⟨gn.name, "RAW: " ++ gn.name, "#ff4d4d"⟩
  else
    ⟨gn.name, (gn.attrs.map NodeAttrs.label).getD gn.name,
      (gn.attrs.map NodeAttrs.color).getD "#4da6ff"⟩

/-- Embeds `get_production_lineage`: the whole resolver.  The argument is the
outcome of the external parse; `none` embeds a parse failure (equivalently,
any exception the surrounding try/except catches), which yields the
canonical empty result. -/
def getProductionLineage : Option Ast → LineageResult
  | none => ⟨[], []⟩
  | some parsed =>
    let targetName := resolveTarget parsed
    let g := assembleGraph parsed
    ⟨g.nodes.map (formatNode g targetName), g.edges⟩

/-- sqlglot AST of
`WITH filtered AS (SELECT * FROM orders WHERE amount > 0)
 INSERT INTO report SELECT * FROM filtered`:
the CTE node carries the defining select (star, from-clause holding the
`orders` table, where-clause) and the alias subtree. -/
def c1Cte : Ast :=
  ast (.cte "filtered")
    [ast .selectStmt
      [ast .other [],
       ast .other [ast (.table "orders") [ast .other []]],
       ast .other []],
     ast .other []]

/-- sqlglot AST of the whole C1 statement: an insert node holding the
destination table, the outer select (from-clause holding the `filtered`
table), and the with-clause holding the CTE. -/
def c1Ast : Ast :=
  ast .insertStmt
    [ast (.table "report") [ast .other []],
     ast .selectStmt
       [ast .other [],
        ast .other [ast (.table "filtered") [ast .other []]]],
     ast .other [c1Cte]]

/-- sqlglot AST of `WITH lone AS (SELECT 1) INSERT INTO t SELECT * FROM src`:
the CTE body references no table at all. -/
def c2Cte : Ast :=
  ast (.cte "lone") [ast .selectStmt [ast .other []], ast .other []]

/-- The whole C2 statement. -/
def c2Ast : Ast :=
  ast .insertStmt
    [ast (.table "t") [ast .other []],
     ast .selectStmt
       [ast .other [],
        ast .other [ast (.table "src") [ast .other []]]],
     ast .other [c2Cte]]

/-- The first of two write statements in the C5 AST. -/
def c5FirstWrite : Ast := ast .insertStmt [ast (.table "staging") [ast .other []]]

/-- The second of two write statements in the C5 AST. -/
def c5SecondWrite : Ast := ast .insertStmt [ast (.table "final_dest") [ast .other []]]

/-- An AST holding two write-statement nodes (structurally possible even if
not produced by a single well-formed statement). -/
def c5Ast : Ast := ast .other [c5FirstWrite, c5SecondWrite]

/-- sqlglot AST of `WITH dup AS (SELECT * FROM x JOIN x)
INSERT INTO t SELECT * FROM dup`: the CTE body references `x` twice. -/
def c6Cte : Ast :=
  ast (.cte "dup")
    [ast .selectStmt
      [ast .other [],
       ast .other [ast (.table "x") [ast .other []]],
       ast .other [ast (.table "x") [ast .other []]]],
     ast .other []]

/-- The whole C6 statement. -/
def c6Ast : Ast :=
  ast .insertStmt
    [ast (.table "t") [ast .other []],
     ast .selectStmt
       [ast .other [],
        ast .other [ast (.table "dup") [ast .other []]]],
     ast .other [c6Cte]]

/-- sqlglot AST of `WITH t AS (SELECT * FROM x) INSERT INTO t SELECT * FROM t`:
the CTE alias coincides with the insert destination. -/
def c7Cte : Ast :=
  ast (.cte "t")
    [ast .selectStmt
      [ast .other [],
       ast .other [ast (.table "x") [ast .other []]]],
     ast .other []]

/-- The whole C7 statement. -/
def c7Ast : Ast :=
  ast .insertStmt
    [ast (.table "t") [ast .other []],
     ast .selectStmt
       [ast .other [],
        ast .other [ast (.table "t") [ast .other []]]],
     ast .other [c7Cte]]

/-- sqlglot AST of `INSERT INTO t VALUES (1)`: a resolvable target but no
select subtree anywhere. -/
def c8Ast : Ast :=
  ast .insertStmt [ast (.table "t") [ast .other []], ast .other [ast .other []]]


/-! ### Generic fold invariants -/

/-- A property preserved by every fold step holds of the fold result. -/
theorem foldl_preserve {α β : Type} (f : β → α → β) (P : β → Prop)
    (pres : ∀ b a, P b → P (f b a)) :
    ∀ (l : List α) (b : β), P b → P (l.foldl f b)
  | [], _, hb => hb
  | a :: l, b, hb => foldl_preserve f P pres l (f b a) (pres b a hb)

/-- A property established by the fold step on some list element, and
preserved by every step, holds of the fold result. -/
theorem foldl_establish {α β : Type} (f : β → α → β) (P : β → Prop) (x : α)
    (est : ∀ b, P (f b x)) (pres : ∀ b a, P b → P (f b a)) :
    ∀ (l : List α) (b : β), x ∈ l → P (l.foldl f b)
  | [], _, hx => absurd hx (List.not_mem_nil x)
  | a :: l, b, hx => by
    rcases List.mem_cons.mp hx with h | h
    · subst h
      exact foldl_preserve f P pres l (f b x) (est b)
    · exact foldl_establish f P x est pres l (f b a) h

/-! ### Graph container lemmas -/

/-- Mapping a name- and successor-preserving update over the node list
leaves the edge list unchanged. -/
theorem edges_map_update (l : List GNode) (f : GNode → GNode)
    (hf : ∀ gn, (f gn).name = gn.name ∧ (f gn).succ = gn.succ) :
    (DiGraph.mk (l.map f)).edges = (DiGraph.mk l).edges := by
  induction l with
  | nil => rfl
  | cons gn t ih =>
    show ((f gn).succ.map fun v => ((f gn).name, v)) ++ (DiGraph.mk (t.map f)).edges
        = (gn.succ.map fun v => (gn.name, v)) ++ (DiGraph.mk t).edges
    rw [(hf gn).1, (hf gn).2, ih]

/-- Mapping a name-preserving update over the node list leaves the name
list unchanged. -/
theorem names_map_update (l : List GNode) (f : GNode → GNode)
    (hf : ∀ gn, (f gn).name = gn.name) :
    (l.map f).map GNode.name = l.map GNode.name := by
  rw [List.map_map]
  exact List.map_congr_left (fun gn _ => hf gn)

theorem setAttrs_name (n : String) (a : NodeAttrs) (gn : GNode) :
    (setAttrs n a gn).name = gn.name := by
  unfold setAttrs
  split <;> rfl

theorem setAttrs_succ (n : String) (a : NodeAttrs) (gn : GNode) :
    (setAttrs n a gn).succ = gn.succ := by
  unfold setAttrs
  split <;> rfl

theorem setAttrs_attrs (n : String) (a : NodeAttrs) (gn : GNode) :
    (setAttrs n a gn).attrs = if gn.name = n then some a else gn.attrs := by
  unfold setAttrs
  split <;> simp_all

theorem DiGraph.addNode_edges (g : DiGraph) (n : String) (a : NodeAttrs) :
    (g.addNode n a).edges = g.edges := by
  unfold DiGraph.addNode
  split
  · exact edges_map_update g.nodes _ (fun gn => ⟨setAttrs_name n a gn, setAttrs_succ n a gn⟩)
  · show (DiGraph.mk (g.nodes ++ [⟨n, some a, []⟩])).edges = g.edges
    unfold DiGraph.edges
    simp

theorem DiGraph.ensure_edges (g : DiGraph) (n : String) :
    (g.ensure n).edges = g.edges := by
  unfold DiGraph.ensure
  split
  · rfl
  · show (DiGraph.mk (g.nodes ++ [⟨n, none, []⟩])).edges = g.edges
    unfold DiGraph.edges
    simp

/-- Predicate bridge: `l.any (·.name = n)` is membership of `n` in the name list. -/
theorem any_name_iff (l : List GNode) (n : String) :
    l.any (fun gn => gn.name = n) = true ↔ n ∈ l.map GNode.name := by
  rw [List.any_eq_true]
  simp [List.mem_map, eq_comm]

theorem DiGraph.names_addNode_eq (g : DiGraph) (n : String) (a : NodeAttrs) :
    (g.addNode n a).nodes.map GNode.name =
      if n ∈ g.nodes.map GNode.name then g.nodes.map GNode.name
      else g.nodes.map GNode.name ++ [n] := by
  unfold DiGraph.addNode
  split
  · next hany =>
    rw [if_pos ((any_name_iff _ _).mp hany)]
    exact names_map_update g.nodes _ (fun gn => setAttrs_name n a gn)
  · next hany =>
    rw [if_neg (fun hmem => hany ((any_name_iff _ _).mpr hmem))]
    simp

theorem DiGraph.names_ensure_eq (g : DiGraph) (n : String) :
    (g.ensure n).nodes.map GNode.name =
      if n ∈ g.nodes.map GNode.name then g.nodes.map GNode.name
      else g.nodes.map GNode.name ++ [n] := by
  unfold DiGraph.ensure
  split
  · next hany =>
    rw [if_pos ((any_name_iff _ _).mp hany)]
  · next hany =>
    rw [if_neg (fun hmem => hany ((any_name_iff _ _).mpr hmem))]
    simp

theorem updateSucc_name (u v : String) (gn : GNode) :
    (updateSucc u v gn).name = gn.name := by
  unfold updateSucc
  split <;> rfl

theorem updateSucc_attrs (u v : String) (gn : GNode) :
    (updateSucc u v gn).attrs = gn.attrs := by
  unfold updateSucc
  split <;> rfl

theorem mem_updateSucc_succ_iff (u v x : String) (gn : GNode) :
    x ∈ (updateSucc u v gn).succ ↔ x ∈ gn.succ ∨ (gn.name = u ∧ x = v) := by
  unfold updateSucc
  by_cases hn : gn.name = u
  · rw [if_pos hn]
    show x ∈ (if v ∈ gn.succ then gn.succ else gn.succ ++ [v]) ↔ _
    by_cases hv : v ∈ gn.succ
    · rw [if_pos hv]
      constructor
      · exact Or.inl
      · rintro (h | ⟨_, rfl⟩)
        · exact h
        · exact hv
    · rw [if_neg hv]
      simp only [List.mem_append, List.mem_singleton]
      constructor
      · rintro (h | rfl)
        · exact Or.inl h
        · exact Or.inr ⟨hn, rfl⟩
      · rintro (h | ⟨_, rfl⟩)
        · exact Or.inl h
        · exact Or.inr rfl
  · rw [if_neg hn]
    constructor
    · exact Or.inl
    · rintro (h | ⟨he, _⟩)
      · exact h
      · exact absurd he hn

theorem DiGraph.names_addEdge (g : DiGraph) (u v : String) :
    (g.addEdge u v).nodes.map GNode.name = ((g.ensure u).ensure v).nodes.map GNode.name := by
  unfold DiGraph.addEdge
  exact names_map_update _ _ (fun gn => updateSucc_name u v gn)

theorem DiGraph.mem_edges_iff (g : DiGraph) (e : String × String) :
    e ∈ g.edges ↔ ∃ gn ∈ g.nodes, gn.name = e.1 ∧ e.2 ∈ gn.succ := by
  unfold DiGraph.edges
  rw [List.mem_flatMap]
  constructor
  · rintro ⟨gn, hgn, hmem⟩
    rcases List.mem_map.mp hmem with ⟨v, hv, hveq⟩
    cases hveq
    exact ⟨gn, hgn, rfl, hv⟩
  · rintro ⟨gn, hgn, h1, h2⟩
    refine ⟨gn, hgn, List.mem_map.mpr ⟨e.2, h2, ?_⟩⟩
    rw [h1]

theorem DiGraph.mem_nodes_ensure (g : DiGraph) (n : String) {gn : GNode}
    (h : gn ∈ g.nodes) : gn ∈ (g.ensure n).nodes := by
  unfold DiGraph.ensure
  split
  · exact h
  · exact List.mem_append_left _ h

theorem DiGraph.exists_name_ensure (g : DiGraph) (n : String) :
    ∃ gn ∈ (g.ensure n).nodes, gn.name = n := by
  unfold DiGraph.ensure
  split
  · next hany =>
    rcases List.any_eq_true.mp hany with ⟨gn, hgn, hp⟩
    exact ⟨gn, hgn, by simpa using hp⟩
  · exact ⟨⟨n, none, []⟩, by simp, rfl⟩

theorem DiGraph.mem_addEdge_iff (g : DiGraph) (u v : String) (e : String × String) :
    e ∈ (g.addEdge u v).edges ↔ e ∈ g.edges ∨ e = (u, v) := by
  unfold DiGraph.addEdge
  rw [DiGraph.mem_edges_iff]
  constructor
  · rintro ⟨gn', hgn', h1, h2⟩
    rcases List.mem_map.mp hgn' with ⟨gn, hgn, rfl⟩
    rw [updateSucc_name] at h1
    rcases (mem_updateSucc_succ_iff u v e.2 gn).mp h2 with h2' | ⟨hnu, hev⟩
    · left
      have : e ∈ ((g.ensure u).ensure v).edges :=
        (DiGraph.mem_edges_iff _ _).mpr ⟨gn, hgn, h1, h2'⟩
      rwa [DiGraph.ensure_edges, DiGraph.ensure_edges] at this
    · right
      exact Prod.ext_iff.mpr ⟨h1.symm.trans hnu, hev⟩
  · rintro (h | rfl)
    · have h' : e ∈ ((g.ensure u).ensure v).edges := by
        rwa [DiGraph.ensure_edges, DiGraph.ensure_edges]
      rcases (DiGraph.mem_edges_iff _ _).mp h' with ⟨gn, hgn, h1, h2⟩
      exact ⟨updateSucc u v gn, List.mem_map.mpr ⟨gn, hgn, rfl⟩,
        (updateSucc_name u v gn).trans h1,
        (mem_updateSucc_succ_iff u v e.2 gn).mpr (Or.inl h2)⟩
    · rcases g.exists_name_ensure u with ⟨gn, hgn0, hn⟩
      have hgn : gn ∈ ((g.ensure u).ensure v).nodes := (g.ensure u).mem_nodes_ensure v hgn0
      exact ⟨updateSucc u v gn, List.mem_map.mpr ⟨gn, hgn, rfl⟩,
        (updateSucc_name u v gn).trans hn,
        (mem_updateSucc_succ_iff u v v gn).mpr (Or.inr ⟨hn, rfl⟩)⟩

theorem DiGraph.mem_addEdge_of_mem (g : DiGraph) (u v : String) {e : String × String}
    (h : e ∈ g.edges) : e ∈ (g.addEdge u v).edges :=
  (g.mem_addEdge_iff u v e).mpr (Or.inl h)

theorem DiGraph.self_mem_addEdge (g : DiGraph) (u v : String) :
    (u, v) ∈ (g.addEdge u v).edges :=
  (g.mem_addEdge_iff u v (u, v)).mpr (Or.inr rfl)

theorem DiGraph.mem_addEdge_sub (g : DiGraph) (u v : String) {e : String × String}
    (h : e ∈ (g.addEdge u v).edges) : e ∈ g.edges ∨ e = (u, v) :=
  (g.mem_addEdge_iff u v e).mp h

theorem attrsOf_map_update (l : List GNode) (f : GNode → GNode)
    (hf1 : ∀ gn, (f gn).name = gn.name) (hf2 : ∀ gn, (f gn).attrs = gn.attrs)
    (m : String) :
    (DiGraph.mk (l.map f)).attrsOf m = (DiGraph.mk l).attrsOf m := by
  unfold DiGraph.attrsOf DiGraph.findNode
  rw [List.find?_map]
  have hpf : ((fun gn => decide (gn.name = m)) ∘ f) = (fun gn => decide (gn.name = m)) :=
    funext fun gn => by rw [Function.comp_apply, hf1]
  rw [hpf]
  cases h : l.find? (fun gn => decide (gn.name = m)) with
  | none => rfl
  | some gn => simp [hf2]

theorem DiGraph.attrsOf_ensure (g : DiGraph) (n m : String) :
    (g.ensure n).attrsOf m = g.attrsOf m := by
  unfold DiGraph.ensure
  split
  · rfl
  · unfold DiGraph.attrsOf DiGraph.findNode
    simp only
    rw [List.find?_append]
    cases h : g.nodes.find? (fun gn => decide (gn.name = m)) with
    | some gn => simp
    | none =>
      simp only [Option.none_or]
      by_cases hnm : n = m
      · subst hnm
        simp [List.find?]
      · simp [List.find?, hnm]

theorem DiGraph.attrsOf_addEdge (g : DiGraph) (u v m : String) :
    (g.addEdge u v).attrsOf m = g.attrsOf m := by
  unfold DiGraph.addEdge
  rw [attrsOf_map_update _ _ (fun gn => updateSucc_name u v gn)
    (fun gn => updateSucc_attrs u v gn) m]
  rw [DiGraph.attrsOf_ensure, DiGraph.attrsOf_ensure]

theorem DiGraph.attrsOf_addNode_self (g : DiGraph) (n : String) (a : NodeAttrs) :
    (g.addNode n a).attrsOf n = some a := by
  unfold DiGraph.addNode
  split
  · next hany =>
    unfold DiGraph.attrsOf DiGraph.findNode
    rw [List.find?_map]
    have hpf : ((fun gn => decide (gn.name = n)) ∘ setAttrs n a)
        = (fun gn => decide (gn.name = n)) :=
      funext fun gn => by rw [Function.comp_apply, setAttrs_name]
    rw [hpf]
    rcases List.any_eq_true.mp hany with ⟨gn0, hgn0, hp0⟩
    have hsome : (g.nodes.find? (fun gn => decide (gn.name = n))).isSome :=
      List.find?_isSome.mpr ⟨gn0, hgn0, hp0⟩
    rcases Option.isSome_iff_exists.mp hsome with ⟨gn1, hgn1⟩
    rw [hgn1]
    have hname : gn1.name = n := by simpa using List.find?_some hgn1
    simp [setAttrs_attrs, hname]
  · next hany =>
    unfold DiGraph.attrsOf DiGraph.findNode
    simp only
    rw [List.find?_append]
    have hnone : g.nodes.find? (fun gn => decide (gn.name = n)) = none := by
      rw [List.find?_eq_none]
      intro gn hgn hp
      exact hany (List.any_eq_true.mpr ⟨gn, hgn, hp⟩)
    rw [hnone]
    simp [List.find?]

theorem DiGraph.attrsOf_addNode_of_ne (g : DiGraph) (n : String) (a : NodeAttrs)
    (m : String) (hm : m ≠ n) :
    (g.addNode n a).attrsOf m = g.attrsOf m := by
  unfold DiGraph.addNode
  split
  · unfold DiGraph.attrsOf DiGraph.findNode
    rw [List.find?_map]
    have hpf : ((fun gn => decide (gn.name = m)) ∘ setAttrs n a)
        = (fun gn => decide (gn.name = m)) :=
      funext fun gn => by rw [Function.comp_apply, setAttrs_name]
    rw [hpf]
    cases h : g.nodes.find? (fun gn => decide (gn.name = m)) with
    | none => rfl
    | some gn =>
      have hname : gn.name = m := by simpa using List.find?_some h
      simp [setAttrs_attrs, hname, hm]
  · unfold DiGraph.attrsOf DiGraph.findNode
    simp only
    rw [List.find?_append]
    cases h : g.nodes.find? (fun gn => decide (gn.name = m)) with
    | some gn => simp
    | none =>
      simp only [Option.none_or]
      simp [List.find?, decide_eq_false (fun he : n = m => hm he.symm)]

theorem DiGraph.mem_names_addNode_self (g : DiGraph) (n : String) (a : NodeAttrs) :
    n ∈ (g.addNode n a).nodes.map GNode.name := by
  rw [DiGraph.names_addNode_eq]
  split
  · next h => exact h
  · exact List.mem_append_right _ (List.mem_singleton.mpr rfl)

theorem DiGraph.mem_names_addNode (g : DiGraph) (n : String) (a : NodeAttrs)
    {x : String} (h : x ∈ g.nodes.map GNode.name) :
    x ∈ (g.addNode n a).nodes.map GNode.name := by
  rw [DiGraph.names_addNode_eq]
  split
  · exact h
  · exact List.mem_append_left _ h

theorem DiGraph.mem_names_ensure (g : DiGraph) (n : String)
    {x : String} (h : x ∈ g.nodes.map GNode.name) :
    x ∈ (g.ensure n).nodes.map GNode.name := by
  rw [DiGraph.names_ensure_eq]
  split
  · exact h
  · exact List.mem_append_left _ h

theorem DiGraph.mem_names_addEdge (g : DiGraph) (u v : String)
    {x : String} (h : x ∈ g.nodes.map GNode.name) :
    x ∈ (g.addEdge u v).nodes.map GNode.name := by
  rw [DiGraph.names_addEdge]
  exact (g.ensure u).mem_names_ensure v (g.mem_names_ensure u h)

theorem nodup_append_singleton {α : Type} (l : List α) (x : α) (h : l.Nodup)
    (hx : x ∉ l) : (l ++ [x]).Nodup :=
  h.append (List.nodup_singleton x)
    (fun _a ha hax => hx (List.mem_singleton.mp hax ▸ ha))

theorem DiGraph.nodup_names_addNode (g : DiGraph) (n : String) (a : NodeAttrs)
    (h : (g.nodes.map GNode.name).Nodup) :
    ((g.addNode n a).nodes.map GNode.name).Nodup := by
  rw [DiGraph.names_addNode_eq]
  split
  · exact h
  · next hn => exact nodup_append_singleton _ n h hn

theorem DiGraph.nodup_names_ensure (g : DiGraph) (n : String)
    (h : (g.nodes.map GNode.name).Nodup) :
    ((g.ensure n).nodes.map GNode.name).Nodup := by
  rw [DiGraph.names_ensure_eq]
  split
  · exact h
  · next hn => exact nodup_append_singleton _ n h hn

theorem DiGraph.nodup_names_addEdge (g : DiGraph) (u v : String)
    (h : (g.nodes.map GNode.name).Nodup) :
    ((g.addEdge u v).nodes.map GNode.name).Nodup := by
  rw [DiGraph.names_addEdge]
  exact (g.ensure u).nodup_names_ensure v (g.nodup_names_ensure u h)

/-- Every node's successor list is duplicate-free (one edge per ordered
pair, as in networkx). -/
def succNodup (g : DiGraph) : Prop := ∀ gn ∈ g.nodes, gn.succ.Nodup

theorem updateSucc_succ_nodup (u v : String) (gn : GNode) (h : gn.succ.Nodup) :
    (updateSucc u v gn).succ.Nodup := by
  unfold updateSucc
  split
  · show (if v ∈ gn.succ then gn.succ else gn.succ ++ [v]).Nodup
    split
    · exact h
    · next hv => exact nodup_append_singleton _ v h hv
  · exact h

theorem succNodup_addNode (g : DiGraph) (n : String) (a : NodeAttrs)
    (h : succNodup g) : succNodup (g.addNode n a) := by
  unfold DiGraph.addNode
  split
  · intro gn' hgn'
    rcases List.mem_map.mp hgn' with ⟨gn, hgn, rfl⟩
    rw [setAttrs_succ]
    exact h gn hgn
  · intro gn' hgn'
    rcases List.mem_append.mp hgn' with h' | h'
    · exact h gn' h'
    · rw [List.mem_singleton.mp h']
      exact List.nodup_nil

theorem succNodup_ensure (g : DiGraph) (n : String) (h : succNodup g) :
    succNodup (g.ensure n) := by
  unfold DiGraph.ensure
  split
  · exact h
  · intro gn' hgn'
    rcases List.mem_append.mp hgn' with h' | h'
    · exact h gn' h'
    · rw [List.mem_singleton.mp h']
      exact List.nodup_nil

theorem succNodup_addEdge (g : DiGraph) (u v : String) (h : succNodup g) :
    succNodup (g.addEdge u v) := by
  unfold DiGraph.addEdge
  intro gn' hgn'
  rcases List.mem_map.mp hgn' with ⟨gn, hgn, rfl⟩
  exact updateSucc_succ_nodup u v gn
    (succNodup_ensure (g.ensure u) v (succNodup_ensure g u h) gn hgn)

theorem DiGraph.inDegree_eq_zero_iff (g : DiGraph) (n : String) :
    g.inDegree n = 0 ↔ ∀ e ∈ g.edges, e.2 ≠ n := by
  unfold DiGraph.inDegree
  rw [List.length_eq_zero, List.filter_eq_nil_iff]
  constructor
  · intro h e he he2
    rcases (g.mem_edges_iff e).mp he with ⟨gn, hgn, h1, h2⟩
    exact h gn hgn (by simpa using he2 ▸ h2)
  · intro h gn hgn hdec
    have hns : n ∈ gn.succ := by simpa using hdec
    exact h (gn.name, n) ((g.mem_edges_iff _).mpr ⟨gn, hgn, rfl, hns⟩) rfl

/-! ### Dependency-tracer lemmas -/

theorem traceStep_edges_mono (o : String) (b : DiGraph) (s : String)
    {e : String × String} (h : e ∈ b.edges) : e ∈ (traceStep o b s).edges := by
  unfold traceStep
  split
  · exact b.mem_addEdge_of_mem s o h
  · exact h

theorem traceStep_edges_sub (o : String) (b : DiGraph) (s : String)
    {e : String × String} (h : e ∈ (traceStep o b s).edges) :
    e ∈ b.edges ∨ (e = (s, o) ∧ s ≠ o) := by
  unfold traceStep at h
  split at h
  · next hs =>
    rcases b.mem_addEdge_sub s o h with h' | h'
    · exact Or.inl h'
    · exact Or.inr ⟨h', hs⟩
  · exact Or.inl h

theorem traceStep_attrsOf (o : String) (b : DiGraph) (s m : String) :
    (traceStep o b s).attrsOf m = b.attrsOf m := by
  unfold traceStep
  split
  · exact b.attrsOf_addEdge s o m
  · rfl

theorem traceStep_mem_names (o : String) (b : DiGraph) (s : String)
    {x : String} (h : x ∈ b.nodes.map GNode.name) :
    x ∈ (traceStep o b s).nodes.map GNode.name := by
  unfold traceStep
  split
  · exact b.mem_names_addEdge s o h
  · exact h

theorem traceStep_nodup_names (o : String) (b : DiGraph) (s : String)
    (h : (b.nodes.map GNode.name).Nodup) :
    ((traceStep o b s).nodes.map GNode.name).Nodup := by
  unfold traceStep
  split
  · exact b.nodup_names_addEdge s o h
  · exact h

theorem traceStep_succNodup (o : String) (b : DiGraph) (s : String)
    (h : succNodup b) : succNodup (traceStep o b s) := by
  unfold traceStep
  split
  · exact succNodup_addEdge b s o h
  · exact h

theorem traceDependencies_edges_mono (g : DiGraph) (ex : Ast) (o : String)
    {e : String × String} (h : e ∈ g.edges) :
    e ∈ (traceDependencies g ex o).edges :=
  foldl_preserve (traceStep o) (fun b => e ∈ b.edges)
    (fun b s hb => traceStep_edges_mono o b s hb) ex.tableNames g h

theorem traceDependencies_edges_sub (g : DiGraph) (ex : Ast) (o : String)
    {e : String × String} (h : e ∈ (traceDependencies g ex o).edges) :
    e ∈ g.edges ∨ (e.2 = o ∧ e.1 ≠ e.2) := by
  refine foldl_preserve (traceStep o)
    (fun b => ∀ e' ∈ b.edges, e' ∈ g.edges ∨ (e'.2 = o ∧ e'.1 ≠ e'.2)) ?_
    ex.tableNames g (fun e' he' => Or.inl he') e h
  intro b s hb e' he'
  rcases traceStep_edges_sub o b s he' with h' | ⟨rfl, hs⟩
  · exact hb e' h'
  · exact Or.inr ⟨rfl, hs⟩

theorem traceDependencies_mem_edge (g : DiGraph) (ex : Ast) (o : String)
    {src : String} (hsrc : src ∈ ex.tableNames) (hne : src ≠ o) :
    (src, o) ∈ (traceDependencies g ex o).edges := by
  refine foldl_establish (traceStep o) (fun b => (src, o) ∈ b.edges) src ?_
    (fun b s hb => traceStep_edges_mono o b s hb) ex.tableNames g hsrc
  intro b
  unfold traceStep
  rw [if_pos hne]
  exact b.self_mem_addEdge src o

theorem traceDependencies_attrsOf (g : DiGraph) (ex : Ast) (o m : String) :
    (traceDependencies g ex o).attrsOf m = g.attrsOf m :=
  foldl_preserve (traceStep o) (fun b => b.attrsOf m = g.attrsOf m)
    (fun b s hb => (traceStep_attrsOf o b s m).trans hb) ex.tableNames g rfl

theorem traceDependencies_mem_names (g : DiGraph) (ex : Ast) (o : String)
    {x : String} (h : x ∈ g.nodes.map GNode.name) :
    x ∈ (traceDependencies g ex o).nodes.map GNode.name :=
  foldl_preserve (traceStep o) (fun b => x ∈ b.nodes.map GNode.name)
    (fun b s hb => traceStep_mem_names o b s hb) ex.tableNames g h

theorem traceDependencies_nodup_names (g : DiGraph) (ex : Ast) (o : String)
    (h : (g.nodes.map GNode.name).Nodup) :
    ((traceDependencies g ex o).nodes.map GNode.name).Nodup :=
  foldl_preserve (traceStep o) (fun b => (b.nodes.map GNode.name).Nodup)
    (fun b s hb => traceStep_nodup_names o b s hb) ex.tableNames g h

theorem traceDependencies_succNodup (g : DiGraph) (ex : Ast) (o : String)
    (h : succNodup g) : succNodup (traceDependencies g ex o) :=
  foldl_preserve (traceStep o) succNodup
    (fun b s hb => traceStep_succNodup o b s hb) ex.tableNames g h

/-! ### CTE-phase lemmas -/

theorem buildStep_edges_mono (g : DiGraph) (p : String × Ast)
    {e : String × String} (h : e ∈ g.edges) : e ∈ (buildStep g p).edges := by
  unfold buildStep
  refine traceDependencies_edges_mono _ _ _ ?_
  rw [DiGraph.addNode_edges]
  exact h

theorem buildStep_edges_sub (g : DiGraph) (p : String × Ast)
    {e : String × String} (h : e ∈ (buildStep g p).edges) :
    e ∈ g.edges ∨ (e.2 = p.1 ∧ e.1 ≠ e.2) := by
  unfold buildStep at h
  rcases traceDependencies_edges_sub _ _ _ h with h' | ⟨h2, hne⟩
  · rw [DiGraph.addNode_edges] at h'
    exact Or.inl h'
  · exact Or.inr ⟨h2, hne⟩

theorem buildStep_attrsOf_of_ne (g : DiGraph) (p : String × Ast) (m : String)
    (hm : m ≠ p.1) : (buildStep g p).attrsOf m = g.attrsOf m := by
  unfold buildStep
  rw [traceDependencies_attrsOf]
  exact g.attrsOf_addNode_of_ne p.1 (cteAttrs p.1) m hm

theorem buildStep_attrsOf_self (g : DiGraph) (p : String × Ast) :
    (buildStep g p).attrsOf p.1 = some (cteAttrs p.1) := by
  unfold buildStep
  rw [traceDependencies_attrsOf]
  exact g.attrsOf_addNode_self p.1 (cteAttrs p.1)

theorem buildStep_mem_names (g : DiGraph) (p : String × Ast)
    {x : String} (h : x ∈ g.nodes.map GNode.name) :
    x ∈ (buildStep g p).nodes.map GNode.name := by
  unfold buildStep
  exact traceDependencies_mem_names _ _ _ (g.mem_names_addNode p.1 (cteAttrs p.1) h)

theorem buildStep_mem_names_self (g : DiGraph) (p : String × Ast) :
    p.1 ∈ (buildStep g p).nodes.map GNode.name := by
  unfold buildStep
  exact traceDependencies_mem_names _ _ _ (g.mem_names_addNode_self p.1 (cteAttrs p.1))

theorem buildStep_nodup_names (g : DiGraph) (p : String × Ast)
    (h : (g.nodes.map GNode.name).Nodup) :
    ((buildStep g p).nodes.map GNode.name).Nodup := by
  unfold buildStep
  exact traceDependencies_nodup_names _ _ _ (g.nodup_names_addNode p.1 (cteAttrs p.1) h)

theorem buildStep_succNodup (g : DiGraph) (p : String × Ast)
    (h : succNodup g) : succNodup (buildStep g p) := by
  unfold buildStep
  exact traceDependencies_succNodup _ _ _ (succNodup_addNode g p.1 (cteAttrs p.1) h)

theorem buildCteGraph_edges_mono (reg : List (String × Ast)) (g : DiGraph)
    {e : String × String} (h : e ∈ g.edges) : e ∈ (buildCteGraph reg g).edges :=
  foldl_preserve buildStep (fun b => e ∈ b.edges)
    (fun b p hb => buildStep_edges_mono b p hb) reg g h

theorem buildCteGraph_edges_sub (reg : List (String × Ast)) (g : DiGraph)
    {e : String × String} (h : e ∈ (buildCteGraph reg g).edges) :
    e ∈ g.edges ∨ (e.2 ∈ reg.map Prod.fst ∧ e.1 ≠ e.2) := by
  induction reg generalizing g with
  | nil => exact Or.inl h
  | cons p rest ih =>
    have h' : e ∈ (buildCteGraph rest (buildStep g p)).edges := h
    rcases ih (buildStep g p) h' with h'' | ⟨hmem, hne⟩
    · rcases buildStep_edges_sub g p h'' with h3 | ⟨h2, hne⟩
      · exact Or.inl h3
      · exact Or.inr ⟨by rw [h2]; exact List.mem_cons_self _ _, hne⟩
    · exact Or.inr ⟨List.mem_cons_of_mem _ hmem, hne⟩

theorem buildCteGraph_attrsOf_of_not_mem (reg : List (String × Ast)) (g : DiGraph)
    (al : String) (h : al ∉ reg.map Prod.fst) :
    (buildCteGraph reg g).attrsOf al = g.attrsOf al := by
  induction reg generalizing g with
  | nil => rfl
  | cons p rest ih =>
    have hne : al ≠ p.1 := fun he => h (by rw [he]; exact List.mem_cons_self _ _)
    have hrest : al ∉ rest.map Prod.fst := fun hm => h (List.mem_cons_of_mem _ hm)
    show (buildCteGraph rest (buildStep g p)).attrsOf al = g.attrsOf al
    rw [ih (buildStep g p) hrest]
    exact buildStep_attrsOf_of_ne g p al hne

theorem buildCteGraph_attrsOf_of_mem (reg : List (String × Ast)) (g : DiGraph)
    (al : String) (hnd : (reg.map Prod.fst).Nodup) (h : al ∈ reg.map Prod.fst) :
    (buildCteGraph reg g).attrsOf al = some (cteAttrs al) := by
  induction reg generalizing g with
  | nil => exact absurd h (List.not_mem_nil al)
  | cons p rest ih =>
    have hnd' : (rest.map Prod.fst).Nodup := (List.nodup_cons.mp hnd).2
    by_cases hal : al ∈ rest.map Prod.fst
    · exact ih (buildStep g p) hnd' hal
    · have hpe : al = p.1 := by
        rcases List.mem_cons.mp h with h' | h'
        · exact h'
        · exact absurd h' hal
      show (buildCteGraph rest (buildStep g p)).attrsOf al = some (cteAttrs al)
      rw [buildCteGraph_attrsOf_of_not_mem rest (buildStep g p) al hal, hpe]
      exact buildStep_attrsOf_self g p

theorem buildCteGraph_mem_names (reg : List (String × Ast)) (g : DiGraph)
    {x : String} (h : x ∈ g.nodes.map GNode.name) :
    x ∈ (buildCteGraph reg g).nodes.map GNode.name :=
  foldl_preserve buildStep (fun b => x ∈ b.nodes.map GNode.name)
    (fun b p hb => buildStep_mem_names b p hb) reg g h

theorem buildCteGraph_mem_names_of_key (reg : List (String × Ast)) (g : DiGraph)
    (al : String) (h : al ∈ reg.map Prod.fst) :
    al ∈ (buildCteGraph reg g).nodes.map GNode.name := by
  rcases List.mem_map.mp h with ⟨p, hp, rfl⟩
  exact foldl_establish buildStep (fun b => p.1 ∈ b.nodes.map GNode.name) p
    (fun b => buildStep_mem_names_self b p)
    (fun b q hb => buildStep_mem_names b q hb) reg g hp

theorem buildCteGraph_nodup_names (reg : List (String × Ast)) (g : DiGraph)
    (h : (g.nodes.map GNode.name).Nodup) :
    ((buildCteGraph reg g).nodes.map GNode.name).Nodup :=
  foldl_preserve buildStep (fun b => (b.nodes.map GNode.name).Nodup)
    (fun b p hb => buildStep_nodup_names b p hb) reg g h

theorem buildCteGraph_succNodup (reg : List (String × Ast)) (g : DiGraph)
    (h : succNodup g) : succNodup (buildCteGraph reg g) :=
  foldl_preserve buildStep succNodup
    (fun b p hb => buildStep_succNodup b p hb) reg g h

theorem buildCteGraph_mem_edge (reg : List (String × Ast)) (g : DiGraph)
    {al : String} {ex : Ast} (hmem : (al, ex) ∈ reg)
    {src : String} (hsrc : src ∈ ex.tableNames) (hne : src ≠ al) :
    (src, al) ∈ (buildCteGraph reg g).edges := by
  refine foldl_establish buildStep (fun b => (src, al) ∈ b.edges) (al, ex) ?_
    (fun b p hb => buildStep_edges_mono b p hb) reg g hmem
  intro b
  unfold buildStep
  exact traceDependencies_mem_edge _ _ _ hsrc hne

/-! ### Target-phase lemmas -/

theorem addTargetSome_edges_mono (parsed : Ast) (t : String) (g : DiGraph)
    {e : String × String} (h : e ∈ g.edges) : e ∈ (addTargetSome parsed t g).edges := by
  unfold addTargetSome
  split
  · split
    · exact traceDependencies_edges_mono _ _ _ (by rw [DiGraph.addNode_edges]; exact h)
    · rw [DiGraph.addNode_edges]
      exact h
  · exact h

theorem addTarget_edges_mono (parsed : Ast) (t? : Option String) (g : DiGraph)
    {e : String × String} (h : e ∈ g.edges) : e ∈ (addTarget parsed t? g).edges := by
  cases t? with
  | none => exact h
  | some t => exact addTargetSome_edges_mono parsed t g h

theorem addTargetSome_edges_sub (parsed : Ast) (t : String) (g : DiGraph)
    {e : String × String} (h : e ∈ (addTargetSome parsed t g).edges) :
    e ∈ g.edges ∨ (e.2 = t ∧ e.1 ≠ e.2) := by
  unfold addTargetSome at h
  split at h
  · split at h
    · rcases traceDependencies_edges_sub _ _ _ h with h' | ⟨h2, hne⟩
      · rw [DiGraph.addNode_edges] at h'
        exact Or.inl h'
      · exact Or.inr ⟨h2, hne⟩
    · rw [DiGraph.addNode_edges] at h
      exact Or.inl h
  · exact Or.inl h

theorem addTarget_edges_sub (parsed : Ast) (t? : Option String) (g : DiGraph)
    {e : String × String} (h : e ∈ (addTarget parsed t? g).edges) :
    e ∈ g.edges ∨ (∃ t, t? = some t ∧ e.2 = t ∧ e.1 ≠ e.2) := by
  cases t? with
  | none => exact Or.inl h
  | some t =>
    rcases addTargetSome_edges_sub parsed t g h with h' | ⟨h2, hne⟩
    · exact Or.inl h'
    · exact Or.inr ⟨t, rfl, h2, hne⟩

theorem addTargetSome_attrsOf_of_ne (parsed : Ast) (t : String) (g : DiGraph)
    (m : String) (hm : m ≠ t) :
    (addTargetSome parsed t g).attrsOf m = g.attrsOf m := by
  unfold addTargetSome
  split
  · split
    · rw [traceDependencies_attrsOf]
      exact g.attrsOf_addNode_of_ne t (targetAttrs t) m hm
    · exact g.attrsOf_addNode_of_ne t (targetAttrs t) m hm
  · rfl

theorem addTarget_attrsOf_of_ne (parsed : Ast) (t? : Option String) (g : DiGraph)
    (m : String) (hm : some m ≠ t?) :
    (addTarget parsed t? g).attrsOf m = g.attrsOf m := by
  cases t? with
  | none => rfl
  | some t => exact addTargetSome_attrsOf_of_ne parsed t g m (fun he => hm (by rw [he]))

theorem addTarget_attrsOf_self (parsed : Ast) (t : String) (g : DiGraph)
    (ht : t ≠ "") :
    (addTarget parsed (some t) g).attrsOf t = some (targetAttrs t) := by
  show (addTargetSome parsed t g).attrsOf t = some (targetAttrs t)
  unfold addTargetSome
  rw [if_pos ht]
  split
  · rw [traceDependencies_attrsOf]
    exact g.attrsOf_addNode_self t (targetAttrs t)
  · exact g.attrsOf_addNode_self t (targetAttrs t)

theorem addTargetSome_mem_names (parsed : Ast) (t : String) (g : DiGraph)
    {x : String} (h : x ∈ g.nodes.map GNode.name) :
    x ∈ (addTargetSome parsed t g).nodes.map GNode.name := by
  unfold addTargetSome
  split
  · split
    · exact traceDependencies_mem_names _ _ _ (g.mem_names_addNode t (targetAttrs t) h)
    · exact g.mem_names_addNode t (targetAttrs t) h
  · exact h

theorem addTarget_mem_names (parsed : Ast) (t? : Option String) (g : DiGraph)
    {x : String} (h : x ∈ g.nodes.map GNode.name) :
    x ∈ (addTarget parsed t? g).nodes.map GNode.name := by
  cases t? with
  | none => exact h
  | some t => exact addTargetSome_mem_names parsed t g h

theorem addTarget_mem_names_self (parsed : Ast) (t : String) (g : DiGraph)
    (ht : t ≠ "") :
    t ∈ (addTarget parsed (some t) g).nodes.map GNode.name := by
  show t ∈ (addTargetSome parsed t g).nodes.map GNode.name
  unfold addTargetSome
  rw [if_pos ht]
  split
  · exact traceDependencies_mem_names _ _ _ (g.mem_names_addNode_self t (targetAttrs t))
  · exact g.mem_names_addNode_self t (targetAttrs t)

theorem addTargetSome_nodup_names (parsed : Ast) (t : String) (g : DiGraph)
    (h : (g.nodes.map GNode.name).Nodup) :
    ((addTargetSome parsed t g).nodes.map GNode.name).Nodup := by
  unfold addTargetSome
  split
  · split
    · exact traceDependencies_nodup_names _ _ _ (g.nodup_names_addNode t (targetAttrs t) h)
    · exact g.nodup_names_addNode t (targetAttrs t) h
  · exact h

theorem addTarget_nodup_names (parsed : Ast) (t? : Option String) (g : DiGraph)
    (h : (g.nodes.map GNode.name).Nodup) :
    ((addTarget parsed t? g).nodes.map GNode.name).Nodup := by
  cases t? with
  | none => exact h
  | some t => exact addTargetSome_nodup_names parsed t g h

theorem addTargetSome_succNodup (parsed : Ast) (t : String) (g : DiGraph)
    (h : succNodup g) : succNodup (addTargetSome parsed t g) := by
  unfold addTargetSome
  split
  · split
    · exact traceDependencies_succNodup _ _ _ (succNodup_addNode g t (targetAttrs t) h)
    · exact succNodup_addNode g t (targetAttrs t) h
  · exact h

theorem addTarget_succNodup (parsed : Ast) (t? : Option String) (g : DiGraph)
    (h : succNodup g) : succNodup (addTarget parsed t? g) := by
  cases t? with
  | none => exact h
  | some t => exact addTargetSome_succNodup parsed t g h

theorem addTarget_edges_of_no_select (parsed : Ast) (t? : Option String)
    (g : DiGraph) (hsel : parsed.findFirst NodeKind.isSelect = none) :
    (addTarget parsed t? g).edges = g.edges := by
  cases t? with
  | none => rfl
  | some t =>
    show (addTargetSome parsed t g).edges = g.edges
    unfold addTargetSome
    split
    · rw [hsel]
      exact g.addNode_edges t (targetAttrs t)
    · rfl

theorem addTarget_mem_edge (parsed : Ast) (t : String) (g : DiGraph)
    (ht : t ≠ "") {sel : Ast} (hsel : parsed.findFirst NodeKind.isSelect = some sel)
    {src : String} (hsrc : src ∈ sel.tableNames) (hne : src ≠ t) :
    (src, t) ∈ (addTarget parsed (some t) g).edges := by
  show (src, t) ∈ (addTargetSome parsed t g).edges
  unfold addTargetSome
  rw [if_pos ht, hsel]
  exact traceDependencies_mem_edge _ _ _ hsrc hne

/-! ### Assembled-graph invariants and formatter lemmas -/

theorem assembleGraph_nodup_names (parsed : Ast) :
    ((assembleGraph parsed).nodes.map GNode.name).Nodup :=
  addTarget_nodup_names _ _ _ (buildCteGraph_nodup_names _ _ List.nodup_nil)

theorem assembleGraph_succNodup (parsed : Ast) : succNodup (assembleGraph parsed) :=
  addTarget_succNodup _ _ _
    (buildCteGraph_succNodup _ _ (fun gn hgn => absurd hgn (List.not_mem_nil gn)))

theorem edges_nodup_aux (l : List GNode) (h1 : (l.map GNode.name).Nodup)
    (h2 : ∀ gn ∈ l, gn.succ.Nodup) : (DiGraph.mk l).edges.Nodup := by
  induction l with
  | nil => exact List.nodup_nil
  | cons gn t ih =>
    show ((gn.succ.map fun v => (gn.name, v)) ++ (DiGraph.mk t).edges).Nodup
    refine List.Nodup.append ?_ ?_ ?_
    · refine (h2 gn (List.mem_cons_self _ _)).map ?_
      intro a b hab
      injection hab with _ h
    · exact ih (List.nodup_cons.mp h1).2 (fun x hx => h2 x (List.mem_cons_of_mem _ hx))
    · intro e he1 he2
      rcases List.mem_map.mp he1 with ⟨v, _, rfl⟩
      rcases ((DiGraph.mk t).mem_edges_iff _).mp he2 with ⟨gn', hgn', hname, _⟩
      have hname' : gn'.name = gn.name := hname
      exact (List.nodup_cons.mp h1).1 (hname' ▸ List.mem_map_of_mem GNode.name hgn')

theorem assembleGraph_edges_nodup (parsed : Ast) :
    (assembleGraph parsed).edges.Nodup :=
  edges_nodup_aux (assembleGraph parsed).nodes (assembleGraph_nodup_names parsed)
    (assembleGraph_succNodup parsed)

theorem dictInsert_keys (l : List (String × Ast)) (k : String) (v : Ast) :
    (dictInsert l k v).map Prod.fst =
      if k ∈ l.map Prod.fst then l.map Prod.fst else l.map Prod.fst ++ [k] := by
  unfold dictInsert
  split
  · next hany =>
    rcases List.any_eq_true.mp hany with ⟨p, hp, hp1⟩
    rw [if_pos (List.mem_map.mpr ⟨p, hp, by simpa using hp1⟩)]
    rw [List.map_map]
    refine List.map_congr_left ?_
    intro q _
    show Prod.fst (if q.1 = k then (k, v) else q) = q.1
    split
    · next hq => rw [← hq]
    · rfl
  · next hany =>
    rw [if_neg (fun hmem => by
      rcases List.mem_map.mp hmem with ⟨p, hp, hp1⟩
      exact hany (List.any_eq_true.mpr ⟨p, hp, by simpa using hp1⟩))]
    simp

theorem cteRegistry_keys_nodup (parsed : Ast) :
    ((cteRegistry parsed).map Prod.fst).Nodup := by
  unfold cteRegistry
  refine foldl_preserve (fun l c => dictInsert l (cteAliasOf c) c)
    (fun l => (l.map Prod.fst).Nodup) ?_ _ [] List.nodup_nil
  intro l c hl
  rw [dictInsert_keys]
  split
  · exact hl
  · next hk => exact nodup_append_singleton _ _ hl hk

theorem formatNode_id (g : DiGraph) (t? : Option String) (gn : GNode) :
    (formatNode g t? gn).id = gn.name := by
  unfold formatNode
  split <;> rfl

theorem formatNode_raw (g : DiGraph) (t? : Option String) (gn : GNode)
    (h0 : g.inDegree gn.name = 0) (hne : some gn.name ≠ t?) :
    formatNode g t? gn = ⟨gn.name, "RAW: " ++ gn.name, "#ff4d4d"⟩ := by
  unfold formatNode
  rw [if_pos ⟨h0, hne⟩]

theorem formatNode_of_attrs (g : DiGraph) (t? : Option String) (gn : GNode)
    (a : NodeAttrs) (ha : gn.attrs = some a)
    (hcond : ¬(g.inDegree gn.name = 0 ∧ some gn.name ≠ t?)) :
    formatNode g t? gn = ⟨gn.name, a.label, a.color⟩ := by
  unfold formatNode
  rw [if_neg hcond, ha]
  rfl

theorem findNode_mem (g : DiGraph) (n : String) {gn : GNode}
    (h : g.findNode n = some gn) : gn ∈ g.nodes ∧ gn.name = n := by
  unfold DiGraph.findNode at h
  exact ⟨List.mem_of_find?_eq_some h, by simpa using List.find?_some h⟩

theorem findNode_of_mem_names (g : DiGraph) (n : String)
    (h : n ∈ g.nodes.map GNode.name) : ∃ gn, g.findNode n = some gn := by
  unfold DiGraph.findNode
  rcases List.mem_map.mp h with ⟨gn, hgn, hname⟩
  have hs : (g.nodes.find? (fun x => x.name = n)).isSome :=
    List.find?_isSome.mpr ⟨gn, hgn, by simp [hname]⟩
  exact Option.isSome_iff_exists.mp hs

theorem attrsOf_findNode (g : DiGraph) (n : String) {gn : GNode}
    (h : g.findNode n = some gn) : g.attrsOf n = gn.attrs := by
  unfold DiGraph.attrsOf
  rw [h]

theorem nodes_name_inj (g : DiGraph) (h : (g.nodes.map GNode.name).Nodup)
    {gn gn' : GNode} (h1 : gn ∈ g.nodes) (h2 : gn' ∈ g.nodes)
    (he : gn.name = gn'.name) : gn = gn' :=
  List.inj_on_of_nodup_map h h1 h2 he

/-! ### The claims -/

/-- C1: for `WITH filtered AS (SELECT * FROM orders WHERE amount > 0)
INSERT INTO report SELECT * FROM filtered`, the returned node list includes
`orders` classified as raw source, `filtered` as CTE and `report` as
target, and the edge list consists exactly of the two edges
orders→filtered and filtered→report. -/
theorem c1_with_insert_scenario :
    (⟨"orders", "RAW: orders", "#ff4d4d"⟩ : VisNode)
        ∈ (getProductionLineage (some c1Ast)).nodes ∧
    (⟨"filtered", "CTE: filtered", "#4da6ff"⟩ : VisNode)
        ∈ (getProductionLineage (some c1Ast)).nodes ∧
    (⟨"report", "report", "#4dff88"⟩ : VisNode)
        ∈ (getProductionLineage (some c1Ast)).nodes ∧
    (getProductionLineage (some c1Ast)).edges.length = 2 ∧
    ("orders", "filtered") ∈ (getProductionLineage (some c1Ast)).edges ∧
    ("filtered", "report") ∈ (getProductionLineage (some c1Ast)).edges := by
  decide

/-- C2 counterexample: in `WITH lone AS (SELECT 1) INSERT INTO t SELECT *
FROM src`, `lone` is a registered CTE alias distinct from the resolved
target, its in-degree is zero, and the output labels it `RAW: lone` with
the raw-source color — refuting the claim that a registered alias is never
classified as a raw source. -/
theorem c2_counterexample :
    "lone" ∈ (cteRegistry c2Ast).map Prod.fst ∧
    some "lone" ≠ resolveTarget c2Ast ∧
    ¬(∀ vn ∈ (getProductionLineage (some c2Ast)).nodes,
        vn.id = "lone" → vn.label = "CTE: lone") := by
  decide

/-- C2 (amended): a registered CTE alias distinct from the resolved target
name appears in the output, labeled `CTE: <name>` exactly when its
in-degree in the assembled graph is nonzero; with in-degree zero the
in-degree rule labels it `RAW: <name>` instead. -/
theorem c2_cte_label_by_indegree (parsed : Ast) (al : String)
    (hreg : al ∈ (cteRegistry parsed).map Prod.fst)
    (hne : some al ≠ resolveTarget parsed) :
    (∃ vn ∈ (getProductionLineage (some parsed)).nodes, vn.id = al) ∧
    (∀ vn ∈ (getProductionLineage (some parsed)).nodes, vn.id = al →
      vn.label = if (assembleGraph parsed).inDegree al = 0
                 then "RAW: " ++ al else "CTE: " ++ al) := by
  have hmem : al ∈ (assembleGraph parsed).nodes.map GNode.name := by
    unfold assembleGraph
    exact addTarget_mem_names _ _ _ (buildCteGraph_mem_names_of_key _ _ al hreg)
  have hattrs : (assembleGraph parsed).attrsOf al = some (cteAttrs al) := by
    unfold assembleGraph
    rw [addTarget_attrsOf_of_ne _ _ _ al hne]
    exact buildCteGraph_attrsOf_of_mem _ _ al (cteRegistry_keys_nodup parsed) hreg
  rcases findNode_of_mem_names _ al hmem with ⟨gn, hfind⟩
  have hgnmem := (findNode_mem _ al hfind).1
  have hgnname := (findNode_mem _ al hfind).2
  have hgnattrs : gn.attrs = some (cteAttrs al) :=
    (attrsOf_findNode _ al hfind).symm.trans hattrs
  have hformat : formatNode (assembleGraph parsed) (resolveTarget parsed) gn =
      ⟨al, if (assembleGraph parsed).inDegree al = 0
           then "RAW: " ++ al else "CTE: " ++ al,
        if (assembleGraph parsed).inDegree al = 0
           then "#ff4d4d" else "#4da6ff"⟩ := by
    by_cases h0 : (assembleGraph parsed).inDegree al = 0
    · have h0' : (assembleGraph parsed).inDegree gn.name = 0 := by
        rw [hgnname]
        exact h0
      have hne' : some gn.name ≠ resolveTarget parsed := by
        rw [hgnname]
        exact hne
      rw [formatNode_raw _ _ _ h0' hne', if_pos h0, if_pos h0, hgnname]
    · have hcond : ¬((assembleGraph parsed).inDegree gn.name = 0 ∧
          some gn.name ≠ resolveTarget parsed) := by
        rw [hgnname]
        exact fun hc => h0 hc.1
      rw [formatNode_of_attrs _ _ gn (cteAttrs al) hgnattrs hcond,
        if_neg h0, if_neg h0, hgnname]
      rfl
  constructor
  · exact ⟨_, List.mem_map.mpr ⟨gn, hgnmem, rfl⟩, by rw [hformat]⟩
  · intro vn hvn hid
    rcases List.mem_map.mp hvn with ⟨gn', hgn', rfl⟩
    have hname' : gn'.name = al := by
      rw [← formatNode_id (assembleGraph parsed) (resolveTarget parsed) gn']
      exact hid
    have hgg : gn' = gn :=
      nodes_name_inj _ (assembleGraph_nodup_names parsed) hgn' hgnmem
        (hname'.trans hgnname.symm)
    rw [hgg, hformat]

theorem c2_cte_label_by_indegree_witness :
    ("filtered" ∈ (cteRegistry c1Ast).map Prod.fst ∧
      some "filtered" ≠ resolveTarget c1Ast) ∧
    (∃ vn ∈ (getProductionLineage (some c1Ast)).nodes, vn.id = "filtered") ∧
    (∀ vn ∈ (getProductionLineage (some c1Ast)).nodes, vn.id = "filtered" →
      vn.label = if (assembleGraph c1Ast).inDegree "filtered" = 0
                 then "RAW: " ++ "filtered" else "CTE: " ++ "filtered") :=
  ⟨⟨by decide, by decide⟩,
    c2_cte_label_by_indegree c1Ast "filtered" (by decide) (by decide)⟩

/-- C3: no returned edge has identical source and destination, for any
input — the tracer's self-loop guard. -/
theorem c3_no_self_loop (parsed : Ast) :
    ∀ e ∈ (getProductionLineage (some parsed)).edges, e.1 ≠ e.2 := by
  intro e he
  have he' : e ∈ (assembleGraph parsed).edges := he
  unfold assembleGraph at he'
  rcases addTarget_edges_sub _ _ _ he' with h1 | ⟨t, _, _, hne⟩
  · rcases buildCteGraph_edges_sub _ _ h1 with h2 | ⟨_, hne⟩
    · exact absurd h2 (List.not_mem_nil e)
    · exact hne
  · exact hne

theorem c3_no_self_loop_witness :
    ("x", "t") ∈ (getProductionLineage (some c7Ast)).edges ∧ ("x" : String) ≠ "t" :=
  ⟨by decide, c3_no_self_loop c7Ast ("x", "t") (by decide)⟩

/-- C4: a parse failure — and any internal exception, both embedded as the
`none` parse outcome that the resolver's try/except produces — yields
exactly the empty result, never an error value. -/
theorem c4_failure_yields_empty : getProductionLineage none = ⟨[], []⟩ := rfl

/-- C5: when the AST holds several write-statement nodes, the resolved
target name comes from the last one encountered during enumeration. -/
theorem c5_last_write_wins (parsed : Ast) (pre : List Ast) (s : Ast) (n : String)
    (hw : parsed.findAll NodeKind.isWrite = pre ++ [s])
    (hd : destName s = some n) :
    resolveTarget parsed = some n := by
  unfold resolveTarget
  rw [hw, List.foldl_append]
  simp [hd]

theorem c5_last_write_wins_witness :
    (c5Ast.findAll NodeKind.isWrite = [c5FirstWrite] ++ [c5SecondWrite] ∧
      destName c5SecondWrite = some "final_dest") ∧
    resolveTarget c5Ast = some "final_dest" :=
  ⟨⟨rfl, rfl⟩, c5_last_write_wins c5Ast [c5FirstWrite] c5SecondWrite "final_dest" rfl rfl⟩

/-- C6: the edge list holds at most one edge per ordered pair, and a table
referenced any number of times within one owning scope (a CTE body, or the
final query body) yields exactly one edge to the owning node. -/
theorem c6_one_edge_per_pair (parsed : Ast) :
    (∀ e : String × String,
      (getProductionLineage (some parsed)).edges.countP (fun x => x = e) ≤ 1) ∧
    (∀ al ex, (al, ex) ∈ cteRegistry parsed →
      ∀ src ∈ ex.tableNames, src ≠ al →
      (getProductionLineage (some parsed)).edges.countP (fun x => x = (src, al)) = 1) ∧
    (∀ t sel, resolveTarget parsed = some t → t ≠ "" →
      parsed.findFirst NodeKind.isSelect = some sel →
      ∀ src ∈ sel.tableNames, src ≠ t →
      (getProductionLineage (some parsed)).edges.countP (fun x => x = (src, t)) = 1) := by
  have hnodup : (assembleGraph parsed).edges.Nodup := assembleGraph_edges_nodup parsed
  refine ⟨?_, ?_, ?_⟩
  · intro e
    exact List.nodup_iff_count_le_one.mp hnodup e
  · intro al ex hmem src hsrc hne
    have hedge : (src, al) ∈ (assembleGraph parsed).edges := by
      unfold assembleGraph
      exact addTarget_edges_mono _ _ _ (buildCteGraph_mem_edge _ _ hmem hsrc hne)
    exact List.count_eq_one_of_mem hnodup hedge
  · intro t sel htgt ht hsel src hsrc hne
    have hedge : (src, t) ∈ (assembleGraph parsed).edges := by
      unfold assembleGraph
      rw [htgt]
      exact addTarget_mem_edge _ t _ ht hsel hsrc hne
    exact List.count_eq_one_of_mem hnodup hedge

theorem c6_one_edge_per_pair_witness :
    (("dup", c6Cte) ∈ cteRegistry c6Ast ∧ "x" ∈ c6Cte.tableNames ∧
      ("x" : String) ≠ "dup") ∧
    (getProductionLineage (some c6Ast)).edges.countP (fun x => x = ("x", "dup")) = 1 :=
  ⟨⟨List.mem_singleton.mpr rfl, by decide, by decide⟩,
    (c6_one_edge_per_pair c6Ast).2.1 "dup" c6Cte (List.mem_singleton.mpr rfl)
      "x" (by decide) (by decide)⟩

/-- C7: a registered CTE alias equal to the resolved target name is
formatted as the target — bare-name label and target color — because the
target node registration overwrites the CTE attributes. -/
theorem c7_target_overrides_cte (parsed : Ast) (al : String)
    (_hreg : al ∈ (cteRegistry parsed).map Prod.fst)
    (htgt : resolveTarget parsed = some al) (hal : al ≠ "") :
    (∃ vn ∈ (getProductionLineage (some parsed)).nodes, vn.id = al) ∧
    (∀ vn ∈ (getProductionLineage (some parsed)).nodes, vn.id = al →
      vn.label = al ∧ vn.color = "#4dff88") := by
  have hmem : al ∈ (assembleGraph parsed).nodes.map GNode.name := by
    unfold assembleGraph
    rw [htgt]
    exact addTarget_mem_names_self _ al _ hal
  have hattrs : (assembleGraph parsed).attrsOf al = some (targetAttrs al) := by
    unfold assembleGraph
    rw [htgt]
    exact addTarget_attrsOf_self _ al _ hal
  rcases findNode_of_mem_names _ al hmem with ⟨gn, hfind⟩
  have hgnmem := (findNode_mem _ al hfind).1
  have hgnname := (findNode_mem _ al hfind).2
  have hgnattrs : gn.attrs = some (targetAttrs al) :=
    (attrsOf_findNode _ al hfind).symm.trans hattrs
  have hcond : ¬((assembleGraph parsed).inDegree gn.name = 0 ∧
      some gn.name ≠ resolveTarget parsed) := by
    rw [hgnname, htgt]
    rintro ⟨_, hne⟩
    exact hne rfl
  have hformat : formatNode (assembleGraph parsed) (resolveTarget parsed) gn =
      ⟨al, al, "#4dff88"⟩ := by
    rw [formatNode_of_attrs _ _ gn (targetAttrs al) hgnattrs hcond, hgnname]
    rfl
  constructor
  · exact ⟨_, List.mem_map.mpr ⟨gn, hgnmem, rfl⟩, by rw [hformat]⟩
  · intro vn hvn hid
    rcases List.mem_map.mp hvn with ⟨gn', hgn', rfl⟩
    have hname' : gn'.name = al := by
      rw [← formatNode_id (assembleGraph parsed) (resolveTarget parsed) gn']
      exact hid
    have hgg : gn' = gn :=
      nodes_name_inj _ (assembleGraph_nodup_names parsed) hgn' hgnmem
        (hname'.trans hgnname.symm)
    rw [hgg, hformat]
    exact ⟨rfl, rfl⟩

theorem c7_target_overrides_cte_witness :
    ("t" ∈ (cteRegistry c7Ast).map Prod.fst ∧ resolveTarget c7Ast = some "t" ∧
      ("t" : String) ≠ "") ∧
    (∃ vn ∈ (getProductionLineage (some c7Ast)).nodes, vn.id = "t") ∧
    (∀ vn ∈ (getProductionLineage (some c7Ast)).nodes, vn.id = "t" →
      vn.label = "t" ∧ vn.color = "#4dff88") :=
  ⟨⟨by decide, rfl, by decide⟩,
    c7_target_overrides_cte c7Ast "t" (by decide) rfl (by decide)⟩

/-- C8: when a target is resolved but no select subtree exists, the target
node still appears in the output while the edge list is exactly what the
CTE phase produced. -/
theorem c8_target_without_select (parsed : Ast) (t : String)
    (htgt : resolveTarget parsed = some t) (ht : t ≠ "")
    (hsel : parsed.findFirst NodeKind.isSelect = none) :
    (∃ vn ∈ (getProductionLineage (some parsed)).nodes, vn.id = t) ∧
    (getProductionLineage (some parsed)).edges =
      (buildCteGraph (cteRegistry parsed) ⟨[]⟩).edges := by
  have hmem : t ∈ (assembleGraph parsed).nodes.map GNode.name := by
    unfold assembleGraph
    rw [htgt]
    exact addTarget_mem_names_self _ t _ ht
  constructor
  · rcases findNode_of_mem_names _ t hmem with ⟨gn, hfind⟩
    exact ⟨_, List.mem_map.mpr ⟨gn, (findNode_mem _ t hfind).1, rfl⟩,
      (formatNode_id _ _ gn).trans (findNode_mem _ t hfind).2⟩
  · show (assembleGraph parsed).edges = _
    unfold assembleGraph
    exact addTarget_edges_of_no_select parsed _ _ hsel

theorem c8_target_without_select_witness :
    (resolveTarget c8Ast = some "t" ∧ ("t" : String) ≠ "" ∧
      c8Ast.findFirst NodeKind.isSelect = none) ∧
    (∃ vn ∈ (getProductionLineage (some c8Ast)).nodes, vn.id = "t") ∧
    (getProductionLineage (some c8Ast)).edges =
      (buildCteGraph (cteRegistry c8Ast) ⟨[]⟩).edges :=
  ⟨⟨rfl, by decide, rfl⟩, c8_target_without_select c8Ast "t" rfl (by decide) rfl⟩

/-- C9: every returned edge points into a registered CTE alias or into the
resolved target; consequently an output node that is neither has in-degree
zero in the assembled graph. -/
theorem c9_edge_destinations (parsed : Ast) :
    (∀ e ∈ (getProductionLineage (some parsed)).edges,
      e.2 ∈ (cteRegistry parsed).map Prod.fst ∨ resolveTarget parsed = some e.2) ∧
    (∀ vn ∈ (getProductionLineage (some parsed)).nodes,
      vn.id ∉ (cteRegistry parsed).map Prod.fst →
      resolveTarget parsed ≠ some vn.id →
      (assembleGraph parsed).inDegree vn.id = 0) := by
  have hmain : ∀ e ∈ (assembleGraph parsed).edges,
      e.2 ∈ (cteRegistry parsed).map Prod.fst ∨ resolveTarget parsed = some e.2 := by
    intro e he
    unfold assembleGraph at he
    rcases addTarget_edges_sub _ _ _ he with h1 | ⟨t, ht, h2, _⟩
    · rcases buildCteGraph_edges_sub _ _ h1 with h2 | ⟨hmem, _⟩
      · exact absurd h2 (List.not_mem_nil e)
      · exact Or.inl hmem
    · exact Or.inr (by rw [ht, h2])
  constructor
  · exact hmain
  · intro vn _ hnk hnt
    rw [DiGraph.inDegree_eq_zero_iff]
    intro e he he2
    rcases hmain e he with h | h
    · exact hnk (he2 ▸ h)
    · exact hnt (he2 ▸ h)

theorem c9_edge_destinations_witness :
    ("orders", "filtered") ∈ (getProductionLineage (some c1Ast)).edges ∧
    ("filtered" ∈ (cteRegistry c1Ast).map Prod.fst ∨
      resolveTarget c1Ast = some "filtered") :=
  ⟨by decide, (c9_edge_destinations c1Ast).1 ("orders", "filtered") (by decide)⟩

/-- C10: resolution is deterministic — the result is a function of the
parse outcome alone, so equal inputs give results equal item for item. -/
theorem c10_deterministic (p q : Option Ast) (h : p = q) :
    getProductionLineage p = getProductionLineage q :=
  congrArg getProductionLineage h

theorem c10_deterministic_witness :
    getProductionLineage (some c1Ast) = getProductionLineage (some c1Ast) :=
  c10_deterministic (some c1Ast) (some c1Ast) rfl

/-! ### Fuel adequacy of the breadth-first enumeration -/

/-- The total node count of a queue of subtrees. -/
def queueSize (q : List Ast) : Nat := (q.map Ast.size).sum

theorem AstList.size_toList : ∀ l : AstList, l.size = queueSize l.toList
  | .nil => rfl
  | .cons a l => by
    show a.size + l.size = queueSize (a :: l.toList)
    rw [AstList.size_toList l]
    simp [queueSize]

theorem Ast.size_children_eq (a : Ast) : a.size = 1 + queueSize a.children := by
  cases a with
  | mk k cs =>
    show 1 + AstList.size cs = 1 + queueSize cs.toList
    rw [AstList.size_toList cs]

theorem queueSize_append (q r : List Ast) :
    queueSize (q ++ r) = queueSize q + queueSize r := by
  unfold queueSize
  rw [List.map_append, List.sum_append]

theorem Ast.size_pos (a : Ast) : 0 < a.size := by
  cases a with
  | mk k cs =>
    show 0 < 1 + AstList.size cs
    omega

/-- Any two fuels at least the queue's total node count produce the same
breadth-first enumeration: `Ast.walk`'s fuel is not observable. -/
theorem bfsFuel_eq_of_le (f1 : Nat) : ∀ (q : List Ast) (f2 : Nat),
    queueSize q ≤ f1 → queueSize q ≤ f2 → bfsFuel f1 q = bfsFuel f2 q := by
  induction f1 with
  | zero =>
    intro q f2 h1 _
    cases q with
    | nil => cases f2 <;> rfl
    | cons a rest =>
      exfalso
      have hpos := Ast.size_pos a
      have hq : queueSize (a :: rest) = a.size + queueSize rest := by
        simp [queueSize]
      omega
  | succ f1 ih =>
    intro q f2 h1 h2
    cases q with
    | nil => cases f2 <;> rfl
    | cons a rest =>
      have hpos := Ast.size_pos a
      have hq : queueSize (a :: rest) = a.size + queueSize rest := by
        simp [queueSize]
      cases f2 with
      | zero => omega
      | succ f2 =>
        show a :: bfsFuel f1 (rest ++ a.children) = a :: bfsFuel f2 (rest ++ a.children)
        congr 1
        have hnew := queueSize_append rest a.children
        have hsz := a.size_children_eq
        exact ih (rest ++ a.children) f2 (by omega) (by omega)

/-- The fuel `Ast.walk` passes, the tree's node count, is sufficient. -/
theorem walk_fuel_sufficient (a : Ast) (f : Nat) (hf : a.size ≤ f) :
    bfsFuel f [a] = a.walk := by
  unfold Ast.walk
  have hq : queueSize [a] = a.size := by simp [queueSize]
  exact bfsFuel_eq_of_le f [a] a.size (by omega) (by omega)
